import Mathlib

/-!
Shallow embedding of the TyrantCam vote/counter subsystem.

The store side is translated from the SQL schema and trigger functions
(tables `tyrants` and `votes`, the unique index `idx_votes_tyrant_ip_unique`,
the check constraint `votes_ip_hash_check`, the trigger functions
`increment_shame_count` / `decrement_shame_count`, and the utility functions
`has_voted` and `get_published_tyrants`).  The client side is translated from
the React application (`getIpHash` fallback, `handleSubmit` of the submission
form).  Opaque UUIDs are modelled as naturals, timestamps as integers
(seconds), SQL `INTEGER` counters as `Int`.
-/

namespace TyrantCam

/-- The `tyrant_category` enum: `federal`, `state`, `local`, `law_enforcement`. -/
inductive Category where
  | federal
  | state
  | «local»
  | law_enforcement
deriving DecidableEq, Repr

/-- One row of the `tyrants` table. -/
structure Tyrant where
  id : Nat
  name : String
  title : String
  position : String
  category : Category
  description : String
  image_url : Option String
  evidence_urls : List String
  shame_count : Int
  is_published : Bool
  created_at : Int
  updated_at : Int
deriving DecidableEq, Repr

/-- One row of the `votes` table. -/
structure Vote where
  id : Nat
  tyrant_id : Nat
  ip_hash : String
  created_at : Int
deriving DecidableEq, Repr

/-- The store state: the `tyrants` and `votes` tables. -/
structure DB where
  tyrants : List Tyrant
  votes : List Vote
deriving DecidableEq, Repr

/-- Caller-visible failure outcomes of the vote operations. -/
inductive VoteError where
  | ValidationError
  | NotFound
  | DuplicateVote
deriving DecidableEq, Repr

/-- Row effect of `UPDATE tyrants SET shame_count = shame_count + 1 WHERE
id = tyrant_id` on one row (the `BEFORE UPDATE` trigger also refreshes
`updated_at`). -/
def incrRow (tyrant_id : Nat) (now : Int) (t : Tyrant) : Tyrant :=
  if t.id == tyrant_id then
    { t with shame_count := t.shame_count + 1, updated_at := now }
  else t

/-- Row effect of `UPDATE tyrants SET shame_count = GREATEST(shame_count - 1,
0) WHERE id = tyrant_id` on one row. -/
def decRow (tyrant_id : Nat) (now : Int) (t : Tyrant) : Tyrant :=
  if t.id == tyrant_id then
    { t with shame_count := max (t.shame_count - 1) 0, updated_at := now }
  else t

/-- Trigger function `increment_shame_count`: `UPDATE tyrants SET
shame_count = shame_count + 1 WHERE id = NEW.tyrant_id`. -/
def increment_shame_count (db : DB) (tyrant_id : Nat) (now : Int) : DB :=
  { db with tyrants := db.tyrants.map (incrRow tyrant_id now) }

/-- Trigger function `decrement_shame_count`: `UPDATE tyrants SET
shame_count = GREATEST(shame_count - 1, 0) WHERE id = OLD.tyrant_id`. -/
def decrement_shame_count (db : DB) (tyrant_id : Nat) (now : Int) : DB :=
  { db with tyrants := db.tyrants.map (decRow tyrant_id now) }

/-- `cast_vote`: an `INSERT INTO votes` guarded by the check constraint
`votes_ip_hash_check` (`char_length(ip_hash) = 64`), the foreign key
`votes.tyrant_id REFERENCES tyrants(id)`, and the unique index
`idx_votes_tyrant_ip_unique ON votes(tyrant_id, ip_hash)`; on success the
`AFTER INSERT` trigger `on_vote_insert` runs `increment_shame_count`.
Returns the outcome together with the post-state (on failure the state is
unchanged). -/
def castVote (db : DB) (entry_id : Nat) (fp : String) (vid : Nat) (now : Int) :
    Except VoteError Vote × DB :=
  if fp.length ≠ 64 then
    (Except.error VoteError.ValidationError, db)
  else if ¬ db.tyrants.any (fun t => t.id == entry_id) then
    (Except.error VoteError.NotFound, db)
  else if db.votes.any (fun v => v.tyrant_id == entry_id && v.ip_hash == fp) then
    (Except.error VoteError.DuplicateVote, db)
  else
    (Except.ok { id := vid, tyrant_id := entry_id, ip_hash := fp, created_at := now },
      increment_shame_count
        { db with
          votes := { id := vid, tyrant_id := entry_id, ip_hash := fp,
                     created_at := now } :: db.votes }
        entry_id now)

/-- `revoke_vote`: a `DELETE FROM votes WHERE id = vote_id`; for the deleted
row the `AFTER DELETE` trigger `on_vote_delete` runs `decrement_shame_count`
on `OLD.tyrant_id`. -/
def revokeVote (db : DB) (vote_id : Nat) (now : Int) : Except VoteError Unit × DB :=
  match db.votes.find? (fun v => v.id == vote_id) with
  | none => (Except.error VoteError.NotFound, db)
  | some v =>
      (Except.ok (),
        decrement_shame_count
          { db with votes := db.votes.filter (fun w => w.id != vote_id) }
          v.tyrant_id now)

/-- SQL function `has_voted(p_tyrant_id, p_ip_hash, p_hours)`: `EXISTS (SELECT
1 FROM votes WHERE tyrant_id = p_tyrant_id AND ip_hash = p_ip_hash AND
created_at > NOW() - (p_hours || ' hours')::INTERVAL)`. -/
def has_voted (db : DB) (p_tyrant_id : Nat) (p_ip_hash : String)
    (p_hours : Int) (now : Int) : Bool :=
  db.votes.any (fun v =>
    v.tyrant_id == p_tyrant_id && v.ip_hash == p_ip_hash &&
      decide (now - p_hours * 3600 < v.created_at))

/-- The `WHERE` clause of `get_published_tyrants`: `is_published = true AND
(p_category IS NULL OR category = p_category)`. -/
def publishedMatching (db : DB) (p_category : Option Category) : List Tyrant :=
  db.tyrants.filter (fun t =>
    t.is_published &&
      match p_category with
      | none => true
      | some c => t.category == c)

/-- The `ORDER BY shame_count DESC, created_at DESC` comparison: `a` may come
no later than `b`. -/
def tyrantLE (a b : Tyrant) : Bool :=
  decide (b.shame_count < a.shame_count) ||
    (a.shame_count == b.shame_count && decide (b.created_at ≤ a.created_at))

/-- SQL function `get_published_tyrants(p_category, p_limit, p_offset)`:
filter published rows (optionally by category), sort by
`shame_count DESC, created_at DESC`, then apply `OFFSET` and `LIMIT`.
The SQL projects a fixed column list; the model returns the whole row. -/
def get_published_tyrants (db : DB) (p_category : Option Category)
    (p_limit p_offset : Nat) : List Tyrant :=
  (((publishedMatching db p_category).mergeSort tyrantLE).drop p_offset).take p_limit

/-- Number of live Vote Events referencing entry `e`. -/
def liveVotes (db : DB) (e : Nat) : Nat :=
  (db.votes.filter (fun v => v.tyrant_id == e)).length

/-- Number of live Vote Events for the pair `(e, f)`. -/
def pairVotes (db : DB) (e : Nat) (f : String) : Nat :=
  (db.votes.filter (fun v => v.tyrant_id == e && v.ip_hash == f)).length

/-- The `shame_count` column of the entry with id `e` (0 when absent). -/
def shameOf (db : DB) (e : Nat) : Int :=
  ((db.tyrants.find? (fun t => t.id == e)).map Tyrant.shame_count).getD 0

/-- Structural well-formedness of a store state: primary keys are unique, every
vote satisfies the `votes_ip_hash_check` constraint and the foreign key to
`tyrants`, the unique index on `(tyrant_id, ip_hash)` holds, and every
`shame_count` equals the live vote count of its entry. -/
def WF (db : DB) : Prop :=
  (db.tyrants.map Tyrant.id).Nodup ∧
  (db.votes.map Vote.id).Nodup ∧
  (∀ v ∈ db.votes, v.ip_hash.length = 64 ∧ v.tyrant_id ∈ db.tyrants.map Tyrant.id) ∧
  (∀ e f, pairVotes db e f ≤ 1) ∧
  (∀ t ∈ db.tyrants, t.shame_count = (liveVotes db t.id : Int))

/-- Reachable store states: the empty store, entry creation (the `tyrants`
insert path, `shame_count` starting at its `DEFAULT 0` and the primary key
freshly generated), a `cast_vote` attempt (with a freshly generated vote id),
and a `revoke_vote` attempt.  Failed attempts keep the state unchanged. -/
inductive Reachable : DB → Prop where
  | init : Reachable { tyrants := [], votes := [] }
  | addEntry (db : DB) (t : Tyrant) :
      Reachable db → t.shame_count = 0 → (∀ u ∈ db.tyrants, u.id ≠ t.id) →
      Reachable { db with tyrants := t :: db.tyrants }
  | cast (db : DB) (e : Nat) (f : String) (vid : Nat) (now : Int) :
      Reachable db → (∀ v ∈ db.votes, v.id ≠ vid) →
      Reachable (castVote db e f vid now).2
  | revoke (db : DB) (vid : Nat) (now : Int) :
      Reachable db → Reachable (revokeVote db vid now).2

/-- Modelled from the spec: the spec describes the fingerprint format as
"exactly 64 hex characters — i.e., a SHA-256 digest"; no hex-digit check
exists in the repository's schema (only `char_length(ip_hash) = 64`), so the
spec's format predicate is stated here for comparison. -/
def isHexChar (c : Char) : Bool :=
  c.isDigit || ('a' ≤ c && c ≤ 'f') || ('A' ≤ c && c ≤ 'F')

/-- Modelled from the spec: "fingerprint not matching the 64-character hex
format". -/
def isHexFingerprint (s : String) : Bool :=
  s.length == 64 && s.data.all isHexChar

/-- The category option values offered by the submission form's select
element. -/
def submissionFormCategoryOptions : List String :=
  ["Federal", "State", "Local", "Law Enforcement"]

/-- The string literals of the `tyrant_category` enum (also the
`TyrantCategory` union type of the client's database types). -/
def tyrantCategoryLiterals : List String :=
  ["federal", "state", "local", "law_enforcement"]

/-- The submission form's state (`FormData` in `SubmissionForm.tsx`); the
file-upload state is carried separately by `handleSubmit`. -/
structure SubmissionFormData where
  tyrant_name : String
  title_position : String
  category : String
  description : String
  reporter_email : String
  is_anonymous : Bool
deriving DecidableEq, Repr

/-- The record `handleSubmit` inserts into `submissions`
(`TablesInsert<'submissions'>`). -/
structure SubmissionRecord where
  tyrant_name : String
  title_position : String
  category : String
  description : String
  evidence_url : Option String
  reporter_email : Option String
  is_anonymous : Bool
  status : String
deriving DecidableEq, Repr

/-- The submission object built inside `handleSubmit`: in particular
`reporter_email: formData.is_anonymous ? null : formData.reporter_email.trim()
|| null` (the empty string is falsy, hence `null`). -/
def buildSubmission (fd : SubmissionFormData) (evidenceUrl : Option String) :
    SubmissionRecord :=
  { tyrant_name := fd.tyrant_name.trim
    title_position := fd.title_position.trim
    category := fd.category
    description := fd.description.trim
    evidence_url := evidenceUrl
    reporter_email :=
      if fd.is_anonymous then none
      else if fd.reporter_email.trim = "" then none
      else some fd.reporter_email.trim
    is_anonymous := fd.is_anonymous
    status := "pending" }

/-- Decimal rendering of a natural number, digit by digit (the way
`Date.now()` is rendered when concatenated into a string). -/
def toDec (n : Nat) : String :=
  if _h : n < 10 then String.mk [Char.ofNat (48 + n)]
  else toDec (n / 10) ++ String.mk [Char.ofNat (48 + n % 10)]
termination_by n
decreasing_by
  exact Nat.div_lt_self (by omega) (by omega)

/-- The fallback value of `getIpHash` when the IP lookup fails:
`'anonymous-' + Date.now()`. -/
def fallbackIpHash (t : Nat) : String :=
  "anonymous-" ++ toDec t

/-- The largest time value `Date.now()` can return (ECMAScript bounds time
values by 8,640,000,000,000,000 milliseconds from the epoch). -/
def maxTimeValue : Nat := 8640000000000000

/-- Fixture: a 64-character fingerprint of 'a'. -/
def fpA : String := String.mk (List.replicate 64 'a')

/-- Fixture: a 64-character fingerprint of 'b'. -/
def fpB : String := String.mk (List.replicate 64 'b')

/-- Fixture: a 64-character fingerprint of 'z' (well-formed for the length
check, not hexadecimal). -/
def fpZ : String := String.mk (List.replicate 64 'z')

/-- Fixture: a published entry with id 0 and no votes yet. -/
def t1 : Tyrant :=
  { id := 0, name := "Jane Roe", title := "Mayor", position := "City Hall",
    category := Category.state, description := "abuses power daily",
    image_url := none, evidence_urls := [], shame_count := 0,
    is_published := true, created_at := 0, updated_at := 0 }

/-- Fixture: the store holding just `t1`. -/
def db1 : DB := { tyrants := [t1], votes := [] }

/-- Fixture: the store after one successful vote for `t1` with fingerprint
`fpA`. -/
def db2 : DB := (castVote db1 0 fpA 10 5).2

/-- Fixture: a filled submission form in the anonymous state. -/
def baseFd : SubmissionFormData :=
  { tyrant_name := "Jane Roe", title_position := "Mayor", category := "Federal",
    description := "a description longer than twenty characters",
    reporter_email := "", is_anonymous := true }

end TyrantCam

namespace TyrantCam

theorem reachable_db1 : Reachable db1 :=
  Reachable.addEntry { tyrants := [], votes := [] } t1 Reachable.init rfl (by simp)

theorem reachable_db2 : Reachable db2 :=
  Reachable.cast db1 0 fpA 10 5 reachable_db1 (by simp [db1])

/-- Claim C5 (as stated) is false on the code: the schema's
`votes_ip_hash_check` constraint checks only `char_length(ip_hash) = 64`, not
hexadecimal format, so a 64-character non-hex fingerprint is accepted: the
vote row is created and the counter is incremented. -/
theorem nonhex_fingerprint_accepted :
    isHexFingerprint fpZ = false ∧
    (castVote db1 0 fpZ 1 0).1
      = Except.ok { id := 1, tyrant_id := 0, ip_hash := fpZ, created_at := 0 } ∧
    liveVotes (castVote db1 0 fpZ 1 0).2 0 = 1 ∧
    shameOf (castVote db1 0 fpZ 1 0).2 0 = 1 :=
  ⟨by decide, rfl, by decide, by decide⟩

/-- Claim C5 (amended): for every entry id and every fingerprint string whose
length is not exactly 64 characters, `cast_vote` fails with `ValidationError`
and has no effect: no vote row is created and no `shame_count` changes. -/
theorem malformed_length_fingerprint_rejected (db : DB) (e vid : Nat)
    (f : String) (now : Int) (hf : f.length ≠ 64) :
    (castVote db e f vid now).1 = Except.error VoteError.ValidationError ∧
    (castVote db e f vid now).2 = db := by
  unfold castVote
  rw [if_pos hf]
  exact ⟨rfl, rfl⟩

/-- Witness for the amended C5 at the concrete fingerprint "anon". -/
theorem malformed_length_fingerprint_rejected_witness :
    ("anon" : String).length ≠ 64 ∧
    (castVote db1 0 "anon" 1 0).1 = Except.error VoteError.ValidationError ∧
    (castVote db1 0 "anon" 1 0).2 = db1 :=
  ⟨by decide, (malformed_length_fingerprint_rejected db1 0 1 "anon" 0 (by decide)).1,
    (malformed_length_fingerprint_rejected db1 0 1 "anon" 0 (by decide)).2⟩

/-- Claim C7: the category strings offered by the submission form's select
element are disjoint from the `tyrant_category` enum literals the store
accepts; in particular the form offers "Law Enforcement", which the enum does
not contain, so the boundary does not exchange only the four enum values. -/
theorem form_category_values_outside_enum :
    (∀ c ∈ submissionFormCategoryOptions, c ∉ tyrantCategoryLiterals) ∧
    "Law Enforcement" ∈ submissionFormCategoryOptions ∧
    "Law Enforcement" ∉ tyrantCategoryLiterals := by
  decide

/-- Claim C8: `has_voted(entry, fingerprint, window)` returns true iff a live
vote for the pair exists whose creation timestamp is later than `now` minus
the window; it is a pure read (a function of the state returning a boolean,
with no state output). -/
theorem has_voted_iff (db : DB) (e : Nat) (f : String) (hours now : Int) :
    has_voted db e f hours now = true ↔
      ∃ v ∈ db.votes, v.tyrant_id = e ∧ v.ip_hash = f ∧
        now - hours * 3600 < v.created_at := by
  simp [has_voted, List.any_eq_true, Bool.and_eq_true, beq_iff_eq,
    decide_eq_true_eq, and_assoc]

/-- Helper: decimal rendering of `n` has at most `k` digits when `n < 10^k`. -/
theorem toDec_length_le : ∀ (k : Nat), 1 ≤ k → ∀ n, n < 10 ^ k → (toDec n).length ≤ k := by
  intro k
  induction k with
  | zero => intro h; omega
  | succ k ih =>
    intro _ n hn
    unfold toDec
    split
    · have h1 : (String.mk [Char.ofNat (48 + n)]).length = 1 := rfl
      omega
    · next h =>
      have h10 : 10 ≤ n := by omega
      have hk1 : 1 ≤ k := by
        by_contra hk0
        have hk : k = 0 := by omega
        subst hk
        simp at hn
        omega
      have hdiv : n / 10 < 10 ^ k := by
        rw [Nat.div_lt_iff_lt_mul (by norm_num)]
        have hpow : 10 ^ (k + 1) = 10 ^ k * 10 := by ring
        omega
      have hrec := ih hk1 (n / 10) hdiv
      rw [String.length_append]
      have h1 : (String.mk [Char.ofNat (48 + n % 10)]).length = 1 := rfl
      omega

/-- Helper: the fallback fingerprint is at most 26 characters long for any
time value `Date.now()` can produce. -/
theorem fallbackIpHash_length_le (t : Nat) (ht : t ≤ maxTimeValue) :
    (fallbackIpHash t).length ≤ 26 := by
  have hpow : (10 : Nat) ^ 16 = 10000000000000000 := by norm_num
  have h16 : t < 10 ^ 16 := by
    unfold maxTimeValue at ht
    omega
  have hd := toDec_length_le 16 (by norm_num) t h16
  unfold fallbackIpHash
  rw [String.length_append]
  have h10 : ("anonymous-" : String).length = 10 := rfl
  omega

/-- Claim C9: when the IP lookup fails, `getIpHash` falls back to
`'anonymous-' + Date.now()`, whose length is never 64, so a vote insert built
from the fallback fingerprint violates `votes_ip_hash_check` and is rejected
with no state change: the fallback path can never record a vote. -/
theorem fallback_fingerprint_never_records_vote (db : DB) (e vid : Nat)
    (t : Nat) (now : Int) (ht : t ≤ maxTimeValue) :
    (fallbackIpHash t).length ≠ 64 ∧
    (castVote db e (fallbackIpHash t) vid now).1
      = Except.error VoteError.ValidationError ∧
    (castVote db e (fallbackIpHash t) vid now).2 = db := by
  have hlen := fallbackIpHash_length_le t ht
  have hne : (fallbackIpHash t).length ≠ 64 := by omega
  unfold castVote
  rw [if_pos hne]
  exact ⟨hne, rfl, rfl⟩

/-- Witness for C9 at a concrete timestamp. -/
theorem fallback_fingerprint_never_records_vote_witness :
    ((1759276800000 : Nat) ≤ maxTimeValue) ∧
    (fallbackIpHash 1759276800000).length ≠ 64 ∧
    (castVote db1 0 (fallbackIpHash 1759276800000) 1 0).1
      = Except.error VoteError.ValidationError :=
  ⟨by decide,
    (fallback_fingerprint_never_records_vote db1 0 1 1759276800000 0 (by decide)).1,
    (fallback_fingerprint_never_records_vote db1 0 1 1759276800000 0 (by decide)).2.1⟩

/-- Claim C10: with `is_anonymous` set, the record `handleSubmit` builds has a
null `reporter_email` and does not depend on the typed email value at all
(two-run noninterference over the submission-building code). -/
theorem anonymous_email_noninterference (fd : SubmissionFormData)
    (u : Option String) (e1 e2 : String) (ha : fd.is_anonymous = true) :
    (buildSubmission { fd with reporter_email := e1 } u).reporter_email = none ∧
    buildSubmission { fd with reporter_email := e1 } u
      = buildSubmission { fd with reporter_email := e2 } u := by
  simp [buildSubmission, ha]

/-- Witness for C10 at a concrete anonymous form state and two typed emails. -/
theorem anonymous_email_noninterference_witness :
    (buildSubmission { baseFd with reporter_email := "typed@example.com" } none).reporter_email
      = none ∧
    buildSubmission { baseFd with reporter_email := "typed@example.com" } none
      = buildSubmission { baseFd with reporter_email := "other@example.com" } none :=
  anonymous_email_noninterference baseFd none "typed@example.com" "other@example.com" rfl

end TyrantCam
namespace TyrantCam

theorem incrRow_id (e : Nat) (now : Int) (t : Tyrant) : (incrRow e now t).id = t.id := by
  unfold incrRow
  split <;> rfl

theorem decRow_id (e : Nat) (now : Int) (t : Tyrant) : (decRow e now t).id = t.id := by
  unfold decRow
  split <;> rfl

theorem map_row_ids (g : Tyrant → Tyrant) (hg : ∀ t, (g t).id = t.id)
    (l : List Tyrant) : (l.map g).map Tyrant.id = l.map Tyrant.id := by
  rw [List.map_map]
  exact List.map_congr_left (fun a _ => hg a)

theorem find?_id_map (g : Tyrant → Tyrant) (hg : ∀ t, (g t).id = t.id)
    (e : Nat) (l : List Tyrant) :
    (l.map g).find? (fun t => t.id == e) = (l.find? (fun t => t.id == e)).map g := by
  induction l with
  | nil => rfl
  | cons x xs ih =>
    by_cases hx : (x.id == e) = true
    · have hgx : ((g x).id == e) = true := by rw [hg]; exact hx
      simp [List.find?, hgx, hx]
    · have hx' : (x.id == e) = false := by rwa [Bool.not_eq_true] at hx
      have hgx : ((g x).id == e) = false := by rw [hg]; exact hx'
      simp [List.find?, hgx, hx', ih]

theorem find?_vote_self (l : List Vote) (v : Vote) (hv : v ∈ l)
    (hn : (l.map Vote.id).Nodup) :
    l.find? (fun w => w.id == v.id) = some v := by
  cases hfind : l.find? (fun w => w.id == v.id) with
  | none =>
    have := List.find?_eq_none.mp hfind v hv
    simp at this
  | some w =>
    have hw : w ∈ l := List.mem_of_find?_eq_some hfind
    have hid : w.id = v.id := by
      have := List.find?_some hfind
      simpa using this
    have heq : w = v := List.inj_on_of_nodup_map hn hw hv hid
    rw [heq]

theorem filter_erase_count (l : List Vote) (v : Vote) (p : Vote → Bool)
    (hv : v ∈ l) (hn : (l.map Vote.id).Nodup) :
    ((l.filter (fun w => w.id != v.id)).filter p).length + (if p v then 1 else 0)
      = (l.filter p).length := by
  induction l with
  | nil => cases hv
  | cons x xs ih =>
    rw [List.map_cons, List.nodup_cons] at hn
    obtain ⟨hx, hxs⟩ := hn
    rcases List.mem_cons.mp hv with h | hv'
    · subst h
      have hkeep : xs.filter (fun w => w.id != v.id) = xs := by
        apply List.filter_eq_self.mpr
        intro w hw
        rw [bne_iff_ne]
        intro hEq
        exact hx (hEq ▸ List.mem_map_of_mem Vote.id hw)
      have h1 : (v :: xs).filter (fun w => w.id != v.id) = xs := by
        rw [List.filter_cons]
        simp [hkeep]
      rw [h1, List.filter_cons]
      cases hp : p v <;> simp [hp]
    · have hxv : (x.id != v.id) = true := by
        rw [bne_iff_ne]
        intro hEq
        exact hx (hEq ▸ List.mem_map_of_mem Vote.id hv')
      have hrec := ih hv' hxs
      simp only [List.filter_cons, hxv, if_true]
      cases hp : p x <;> simp only [List.filter_cons, hp, Bool.false_eq_true,
        if_false, if_true, List.length_cons]
      · exact hrec
      · omega

/-- Claim C4: `revoke_vote` on an existing vote id succeeds, removes that vote
event, and sets the owning entry's `shame_count` to `GREATEST(old - 1, 0)`: a
decrement by 1 floored at 0, so a counter already at 0 stays 0 and the result
is never negative (even on an out-of-sync store). -/
theorem revoke_vote_floors_at_zero (db : DB) (v : Vote) (now : Int)
    (hv : v ∈ db.votes) (hn : (db.votes.map Vote.id).Nodup) :
    (revokeVote db v.id now).1 = Except.ok () ∧
    v ∉ (revokeVote db v.id now).2.votes ∧
    shameOf (revokeVote db v.id now).2 v.tyrant_id
      = max (shameOf db v.tyrant_id - 1) 0 ∧
    (shameOf db v.tyrant_id = 0 → shameOf (revokeVote db v.id now).2 v.tyrant_id = 0) ∧
    0 ≤ shameOf (revokeVote db v.id now).2 v.tyrant_id := by
  have hfind := find?_vote_self db.votes v hv hn
  have hrv : revokeVote db v.id now
      = (Except.ok (),
          decrement_shame_count
            { db with votes := db.votes.filter (fun w => w.id != v.id) }
            v.tyrant_id now) := by
    unfold revokeVote
    rw [hfind]
  have heq : shameOf (revokeVote db v.id now).2 v.tyrant_id
      = max (shameOf db v.tyrant_id - 1) 0 := by
    rw [hrv]
    unfold shameOf decrement_shame_count
    simp only
    rw [find?_id_map (decRow v.tyrant_id now) (decRow_id v.tyrant_id now)]
    cases hft : db.tyrants.find? (fun t => t.id == v.tyrant_id) with
    | none =>
      simp only [Option.map_none', Option.getD_none]
      decide
    | some t =>
      have ht : t.id = v.tyrant_id := by simpa using List.find?_some hft
      simp [decRow, ht]
  refine ⟨by rw [hrv], ?_, heq, ?_, ?_⟩
  · rw [hrv]
    simp [decrement_shame_count, List.mem_filter]
  · intro h0
    rw [heq, h0]
    decide
  · rw [heq]
    exact le_max_right _ 0

/-- Witness for C4 on an out-of-sync store whose counter is already 0 with a
live vote present: the counter stays 0. -/
theorem revoke_vote_floors_at_zero_witness :
    (⟨10, 0, fpA, 5⟩ : Vote) ∈ (DB.mk [t1] [⟨10, 0, fpA, 5⟩]).votes ∧
    shameOf (DB.mk [t1] [⟨10, 0, fpA, 5⟩]) 0 = 0 ∧
    (revokeVote (DB.mk [t1] [⟨10, 0, fpA, 5⟩]) 10 7).1 = Except.ok () ∧
    shameOf (revokeVote (DB.mk [t1] [⟨10, 0, fpA, 5⟩]) 10 7).2 0 = 0 :=
  ⟨by decide, by decide,
    (revoke_vote_floors_at_zero (DB.mk [t1] [⟨10, 0, fpA, 5⟩])
      ⟨10, 0, fpA, 5⟩ 7 (by decide) (by decide)).1,
    (revoke_vote_floors_at_zero (DB.mk [t1] [⟨10, 0, fpA, 5⟩])
      ⟨10, 0, fpA, 5⟩ 7 (by decide) (by decide)).2.2.2.1 (by decide)⟩

end TyrantCam
namespace TyrantCam

theorem liveVotes_after_erase (db : DB) (v : Vote) (hv : v ∈ db.votes)
    (hVN : (db.votes.map Vote.id).Nodup) (e : Nat) :
    ((db.votes.filter (fun w => w.id != v.id)).filter
        (fun w => w.tyrant_id == e)).length
      + (if v.tyrant_id = e then 1 else 0) = liveVotes db e := by
  have h := filter_erase_count db.votes v (fun w => w.tyrant_id == e) hv hVN
  unfold liveVotes
  rcases Decidable.em (v.tyrant_id = e) with hte | hte
  · simpa [hte] using h
  · simpa [hte] using h

theorem WF_addEntry (db : DB) (t : Tyrant) (hWF : WF db) (h0 : t.shame_count = 0)
    (hfresh : ∀ u ∈ db.tyrants, u.id ≠ t.id) :
    WF { db with tyrants := t :: db.tyrants } := by
  obtain ⟨hTN, hVN, hV, hP, hC⟩ := hWF
  refine ⟨?_, hVN, ?_, hP, ?_⟩
  · simp only [List.map_cons, List.nodup_cons]
    refine ⟨fun hmem => ?_, hTN⟩
    obtain ⟨u, hu, hid⟩ := List.mem_map.mp hmem
    exact hfresh u hu hid
  · intro v hv
    exact ⟨(hV v hv).1, List.mem_cons_of_mem _ (hV v hv).2⟩
  · intro u hu
    rcases List.mem_cons.mp hu with rfl | hu'
    · have hzero : liveVotes db u.id = 0 := by
        unfold liveVotes
        rw [List.length_eq_zero, List.filter_eq_nil_iff]
        intro w hw
        intro hwt
        have hwt' : w.tyrant_id = u.id := by simpa using hwt
        obtain ⟨u', hu', hid⟩ := List.mem_map.mp ((hV w hw).2)
        exact hfresh u' hu' (by rw [hid, hwt'])
      have hlv : liveVotes { db with tyrants := u :: db.tyrants } u.id
          = liveVotes db u.id := rfl
      rw [h0, hlv, hzero]
      rfl
    · exact hC u hu'

theorem castVote_bad_len (db : DB) (e : Nat) (f : String) (vid : Nat)
    (now : Int) (h : f.length ≠ 64) :
    castVote db e f vid now = (Except.error VoteError.ValidationError, db) := by
  unfold castVote
  rw [if_pos h]

theorem castVote_no_entry (db : DB) (e : Nat) (f : String) (vid : Nat)
    (now : Int) (h1 : f.length = 64)
    (h2 : db.tyrants.any (fun t => t.id == e) = false) :
    castVote db e f vid now = (Except.error VoteError.NotFound, db) := by
  unfold castVote
  rw [if_neg (by omega), if_pos (by simp [h2])]

theorem castVote_dup (db : DB) (e : Nat) (f : String) (vid : Nat)
    (now : Int) (h1 : f.length = 64)
    (h2 : db.tyrants.any (fun t => t.id == e) = true)
    (h3 : db.votes.any (fun w => w.tyrant_id == e && w.ip_hash == f) = true) :
    castVote db e f vid now = (Except.error VoteError.DuplicateVote, db) := by
  unfold castVote
  rw [if_neg (by omega), if_neg (by simp [h2]), if_pos h3]

theorem castVote_ok (db : DB) (e : Nat) (f : String) (vid : Nat)
    (now : Int) (h1 : f.length = 64)
    (h2 : db.tyrants.any (fun t => t.id == e) = true)
    (h3 : db.votes.any (fun w => w.tyrant_id == e && w.ip_hash == f) = false) :
    castVote db e f vid now
      = (Except.ok { id := vid, tyrant_id := e, ip_hash := f, created_at := now },
          { tyrants := db.tyrants.map (incrRow e now),
            votes := { id := vid, tyrant_id := e, ip_hash := f,
                       created_at := now } :: db.votes }) := by
  unfold castVote increment_shame_count
  rw [if_neg (by omega), if_neg (by simp [h2]), if_neg (by simp [h3])]

theorem WF_castVote (db : DB) (e : Nat) (f : String) (vid : Nat) (now : Int)
    (hWF : WF db) (hfresh : ∀ v ∈ db.votes, v.id ≠ vid) :
    WF (castVote db e f vid now).2 := by
  by_cases h1 : f.length = 64
  · by_cases h2 : db.tyrants.any (fun t => t.id == e) = true
    · by_cases h3 : db.votes.any (fun w => w.tyrant_id == e && w.ip_hash == f) = true
      · rw [castVote_dup db e f vid now h1 h2 h3]
        exact hWF
      · have h3' : db.votes.any (fun w => w.tyrant_id == e && w.ip_hash == f) = false := by
          rwa [Bool.not_eq_true] at h3
        rw [castVote_ok db e f vid now h1 h2 h3']
        obtain ⟨hTN, hVN, hV, hP, hC⟩ := hWF
        refine ⟨?_, ?_, ?_, ?_, ?_⟩
        · rw [map_row_ids _ (incrRow_id e now)]
          exact hTN
        · simp only [List.map_cons, List.nodup_cons]
          refine ⟨fun hmem => ?_, hVN⟩
          obtain ⟨u, hu, hid⟩ := List.mem_map.mp hmem
          exact hfresh u hu hid
        · intro v hv
          simp only [map_row_ids _ (incrRow_id e now)]
          rcases List.mem_cons.mp hv with rfl | hv'
          · refine ⟨h1, ?_⟩
            obtain ⟨t, ht, hte⟩ := List.any_eq_true.mp h2
            exact List.mem_map.mpr ⟨t, ht, by simpa using hte⟩
          · exact ⟨(hV v hv').1, (hV v hv').2⟩
        · intro e' f'
          unfold pairVotes
          rw [List.filter_cons]
          by_cases hef : e = e' ∧ f = f'
          · obtain ⟨rfl, rfl⟩ := hef
            rw [List.any_eq_false] at h3'
            have h0 : (db.votes.filter
                (fun v => v.tyrant_id == e && v.ip_hash == f)).length = 0 := by
              rw [List.length_eq_zero, List.filter_eq_nil_iff]
              intro w' hw'
              exact h3' w' hw'
            have hc : ((⟨vid, e, f, now⟩ : Vote).tyrant_id == e
                && (⟨vid, e, f, now⟩ : Vote).ip_hash == f) = true := by simp
            rw [hc]
            simp only [if_true, List.length_cons]
            omega
          · have hcond : ((⟨vid, e, f, now⟩ : Vote).tyrant_id == e'
                && (⟨vid, e, f, now⟩ : Vote).ip_hash == f') = false := by
              rcases Decidable.em (e = e') with hee | hee
              · rcases Decidable.em (f = f') with hff | hff
                · exact absurd ⟨hee, hff⟩ hef
                · simp [hff]
              · simp [hee]
            rw [hcond]
            simp only [Bool.false_eq_true, if_false]
            exact hP e' f'
        · intro u' hu'
          obtain ⟨u, hu, rfl⟩ := List.mem_map.mp hu'
          have hCu := hC u hu
          rw [incrRow_id]
          by_cases hue : (u.id == e) = true
          · have hueq : u.id = e := by simpa using hue
            subst hueq
            unfold incrRow
            rw [if_pos hue]
            unfold liveVotes
            rw [List.filter_cons]
            have hc : ((⟨vid, u.id, f, now⟩ : Vote).tyrant_id == u.id) = true := by
              simp
            rw [hc]
            simp only [if_true, List.length_cons]
            unfold liveVotes at hCu
            omega
          · unfold incrRow
            rw [if_neg hue]
            unfold liveVotes
            rw [List.filter_cons]
            have hcond : ((⟨vid, e, f, now⟩ : Vote).tyrant_id == u.id) = false := by
              show (e == u.id) = false
              rw [beq_eq_false_iff_ne]
              intro hc
              exact hue (by simp [hc])
            rw [hcond]
            simp only [Bool.false_eq_true, if_false]
            exact hCu
    · have h2' : db.tyrants.any (fun t => t.id == e) = false := by
        rwa [Bool.not_eq_true] at h2
      rw [castVote_no_entry db e f vid now h1 h2']
      exact hWF
  · rw [castVote_bad_len db e f vid now h1]
    exact hWF

theorem WF_revokeVote (db : DB) (vid : Nat) (now : Int) (hWF : WF db) :
    WF (revokeVote db vid now).2 := by
  obtain ⟨hTN, hVN, hV, hP, hC⟩ := hWF
  unfold revokeVote
  cases hfind : db.votes.find? (fun w => w.id == vid) with
  | none => exact ⟨hTN, hVN, hV, hP, hC⟩
  | some v =>
    have hvmem : v ∈ db.votes := List.mem_of_find?_eq_some hfind
    have hvid : v.id = vid := by simpa using List.find?_some hfind
    subst hvid
    refine ⟨?_, ?_, ?_, ?_, ?_⟩
    · simp only [decrement_shame_count]
      rw [map_row_ids _ (decRow_id v.tyrant_id now)]
      exact hTN
    · simp only [decrement_shame_count]
      exact List.Nodup.sublist
        (List.Sublist.map Vote.id (List.filter_sublist _)) hVN
    · intro w hw
      simp only [decrement_shame_count] at hw ⊢
      have hw' : w ∈ db.votes := List.mem_of_mem_filter hw
      refine ⟨(hV w hw').1, ?_⟩
      rw [map_row_ids _ (decRow_id v.tyrant_id now)]
      exact (hV w hw').2
    · intro e' f'
      have hle : pairVotes (revokeVote db v.id now).2 e' f' ≤ pairVotes db e' f' := by
        unfold revokeVote
        rw [hfind]
        unfold pairVotes
        simp only [decrement_shame_count]
        exact List.Sublist.length_le
          (List.Sublist.filter _ (List.filter_sublist _))
      have hrw : (revokeVote db v.id now).2
          = decrement_shame_count
              { db with votes := db.votes.filter (fun w => w.id != v.id) }
              v.tyrant_id now := by
        unfold revokeVote
        rw [hfind]
      rw [hrw] at hle
      exact le_trans hle (hP e' f')
    · intro u' hu'
      simp only [decrement_shame_count] at hu'
      obtain ⟨u, hu, rfl⟩ := List.mem_map.mp hu'
      have hCu := hC u hu
      have hle := liveVotes_after_erase db v hvmem hVN u.id
      unfold decRow
      by_cases hue : (u.id == v.tyrant_id) = true
      · have hueq : u.id = v.tyrant_id := by simpa using hue
        rw [if_pos hue]
        rw [if_pos hueq.symm] at hle
        have hc1 : 1 ≤ liveVotes db u.id := by omega
        simp only [decrement_shame_count, liveVotes]
        unfold liveVotes at hCu hle hc1
        rw [hCu]
        rw [max_eq_left (by omega)]
        omega
      · have hueq : v.tyrant_id ≠ u.id := by
          intro hc
          exact hue (by simp [hc])
        rw [if_neg hue]
        rw [if_neg hueq] at hle
        simp only [decrement_shame_count, liveVotes]
        unfold liveVotes at hCu hle
        rw [hCu]
        omega

theorem WF_empty : WF { tyrants := [], votes := [] } := by
  refine ⟨by simp, by simp, by simp, ?_, by simp⟩
  intro e f
  simp [pairVotes]

theorem WF_of_Reachable (db : DB) (h : Reachable db) : WF db := by
  induction h with
  | init => exact WF_empty
  | addEntry db t _ h0 hfresh ih => exact WF_addEntry db t ih h0 hfresh
  | cast db e f vid now _ hfresh ih => exact WF_castVote db e f vid now ih hfresh
  | revoke db vid now _ ih => exact WF_revokeVote db vid now ih

end TyrantCam
namespace TyrantCam

theorem tyrantLE_trans (a b c : Tyrant) (hab : tyrantLE a b = true)
    (hbc : tyrantLE b c = true) : tyrantLE a c = true := by
  simp only [tyrantLE, Bool.or_eq_true, Bool.and_eq_true, decide_eq_true_eq,
    beq_iff_eq] at hab hbc ⊢
  rcases hab with h | ⟨h1, h2⟩ <;> rcases hbc with h' | ⟨h1', h2'⟩
  · left; omega
  · left; omega
  · left; omega
  · right; exact ⟨by omega, by omega⟩

theorem tyrantLE_total (a b : Tyrant) : (tyrantLE a b || tyrantLE b a) = true := by
  simp only [tyrantLE, Bool.or_eq_true, Bool.and_eq_true, decide_eq_true_eq,
    beq_iff_eq]
  omega

/-- Claim C1: in every reachable store state, the `shame_count` of every entry
equals the number of live Vote Events referencing it; moreover a successful
`cast_vote` (vote insert plus increment trigger) raises the target entry's
live-event count and counter by exactly 1, and deleting an existing vote
(`revoke_vote`'s effect) lowers both by exactly 1, so the counter never
diverges from live-event cardinality. -/
theorem shame_count_consistency (db : DB) (h : Reachable db) :
    (∀ t ∈ db.tyrants, t.shame_count = (liveVotes db t.id : Int)) ∧
    (∀ e f vid now v, (castVote db e f vid now).1 = Except.ok v →
      liveVotes (castVote db e f vid now).2 e = liveVotes db e + 1 ∧
      shameOf (castVote db e f vid now).2 e = shameOf db e + 1) ∧
    (∀ w ∈ db.votes, ∀ now,
      liveVotes (revokeVote db w.id now).2 w.tyrant_id + 1
        = liveVotes db w.tyrant_id ∧
      shameOf (revokeVote db w.id now).2 w.tyrant_id + 1
        = shameOf db w.tyrant_id) := by
  obtain ⟨hTN, hVN, hV, hP, hC⟩ := WF_of_Reachable db h
  refine ⟨hC, ?_, ?_⟩
  · intro e f vid now v hok
    by_cases h1 : f.length = 64
    · by_cases h2 : db.tyrants.any (fun t => t.id == e) = true
      · by_cases h3 : db.votes.any (fun w => w.tyrant_id == e && w.ip_hash == f) = true
        · rw [castVote_dup db e f vid now h1 h2 h3] at hok
          simp at hok
        · have h3' : db.votes.any (fun w => w.tyrant_id == e && w.ip_hash == f) = false := by
            rwa [Bool.not_eq_true] at h3
          rw [castVote_ok db e f vid now h1 h2 h3']
          constructor
          · unfold liveVotes
            rw [List.filter_cons]
            have hc : ((⟨vid, e, f, now⟩ : Vote).tyrant_id == e) = true := by simp
            rw [hc]
            simp
          · unfold shameOf
            rw [find?_id_map _ (incrRow_id e now)]
            cases hft : db.tyrants.find? (fun t => t.id == e) with
            | none =>
              rw [List.find?_eq_none] at hft
              obtain ⟨t, ht, hte⟩ := List.any_eq_true.mp h2
              exact absurd hte (hft t ht)
            | some t =>
              have hte : t.id = e := by simpa using List.find?_some hft
              simp only [Option.map_some', Option.getD_some]
              unfold incrRow
              rw [if_pos (by simp [hte])]
      · have h2' : db.tyrants.any (fun t => t.id == e) = false := by
          rwa [Bool.not_eq_true] at h2
        rw [castVote_no_entry db e f vid now h1 h2'] at hok
        simp at hok
    · rw [castVote_bad_len db e f vid now h1] at hok
      simp at hok
  · intro w hw now
    have hfind := find?_vote_self db.votes w hw hVN
    have hrv : revokeVote db w.id now
        = (Except.ok (),
            decrement_shame_count
              { db with votes := db.votes.filter (fun x => x.id != w.id) }
              w.tyrant_id now) := by
      unfold revokeVote
      rw [hfind]
    rw [hrv]
    have hle := liveVotes_after_erase db w hw hVN w.tyrant_id
    rw [if_pos rfl] at hle
    constructor
    · exact hle
    · obtain ⟨hlen, hfk⟩ := hV w hw
      unfold shameOf decrement_shame_count
      simp only
      rw [find?_id_map _ (decRow_id w.tyrant_id now)]
      cases hft : db.tyrants.find? (fun t => t.id == w.tyrant_id) with
      | none =>
        rw [List.find?_eq_none] at hft
        obtain ⟨u, hu, hid⟩ := List.mem_map.mp hfk
        exact absurd (by simp [hid]) (hft u hu)
      | some t =>
        have hte : t.id = w.tyrant_id := by simpa using List.find?_some hft
        simp only [Option.map_some', Option.getD_some]
        unfold decRow
        rw [if_pos (by simp [hte])]
        have hCt := hC t (List.mem_of_find?_eq_some hft)
        rw [hte] at hCt
        have hpos : 1 ≤ liveVotes db w.tyrant_id := by omega
        show max (t.shame_count - 1) 0 + 1 = t.shame_count
        rw [hCt, max_eq_left (by omega)]
        omega

/-- Witness for C1: the consistency invariant evaluated on the concrete
reachable store `db1`. -/
theorem shame_count_consistency_witness :
    t1.shame_count = (liveVotes db1 t1.id : Int) :=
  (shame_count_consistency db1 reachable_db1).1 t1 (by decide)

/-- Claim C2: in every reachable store state, at most one live Vote Event
exists for every pair of entry id and fingerprint (the uniqueness enforced by
`idx_votes_tyrant_ip_unique`). -/
theorem at_most_one_live_vote_per_pair (db : DB) (h : Reachable db)
    (e : Nat) (f : String) :
    pairVotes db e f ≤ 1 :=
  (WF_of_Reachable db h).2.2.2.1 e f

/-- Witness for C2 on the concrete reachable store `db2`. -/
theorem at_most_one_live_vote_per_pair_witness : pairVotes db2 0 fpA ≤ 1 :=
  at_most_one_live_vote_per_pair db2 reachable_db2 0 fpA

/-- Claim C3: in every reachable store state, when a live Vote Event for the
pair already exists, `cast_vote` fails with `DuplicateVote` and leaves the
store unchanged: no new vote row, no counter change. -/
theorem duplicate_vote_rejected (db : DB) (h : Reachable db) (e : Nat)
    (f : String) (vid : Nat) (now : Int)
    (hdup : ∃ v ∈ db.votes, v.tyrant_id = e ∧ v.ip_hash = f) :
    (castVote db e f vid now).1 = Except.error VoteError.DuplicateVote ∧
    (castVote db e f vid now).2 = db := by
  obtain ⟨hTN, hVN, hV, hP, hC⟩ := WF_of_Reachable db h
  obtain ⟨v, hv, hvt, hvf⟩ := hdup
  have hlen : f.length = 64 := by rw [← hvf]; exact (hV v hv).1
  have hfk : e ∈ db.tyrants.map Tyrant.id := by rw [← hvt]; exact (hV v hv).2
  have hany : db.tyrants.any (fun t => t.id == e) = true := by
    rw [List.any_eq_true]
    obtain ⟨u, hu, hid⟩ := List.mem_map.mp hfk
    exact ⟨u, hu, by simp [hid]⟩
  have hdupany : db.votes.any (fun w => w.tyrant_id == e && w.ip_hash == f) = true := by
    rw [List.any_eq_true]
    exact ⟨v, hv, by simp [hvt, hvf]⟩
  rw [castVote_dup db e f vid now hlen hany hdupany]
  exact ⟨rfl, rfl⟩

/-- Witness for C3: repeating the vote of `db2` is rejected as a duplicate and
the store is unchanged. -/
theorem duplicate_vote_rejected_witness :
    (∃ v ∈ db2.votes, v.tyrant_id = 0 ∧ v.ip_hash = fpA) ∧
    (castVote db2 0 fpA 11 6).1 = Except.error VoteError.DuplicateVote ∧
    (castVote db2 0 fpA 11 6).2 = db2 :=
  ⟨by decide,
    (duplicate_vote_rejected db2 reachable_db2 0 fpA 11 6 (by decide)).1,
    (duplicate_vote_rejected db2 reachable_db2 0 fpA 11 6 (by decide)).2⟩

/-- Claim C6: `get_published_tyrants` returns only published entries of the
store, restricted to the requested category when one is supplied, pairwise
sorted by `shame_count` descending then `created_at` descending, and windowed
by the limit and offset (at most `limit` rows; empty when the offset is past
the matching rows). -/
theorem list_published_correct (db : DB) (cat : Option Category)
    (p_limit p_offset : Nat) :
    (∀ t ∈ get_published_tyrants db cat p_limit p_offset,
        t.is_published = true ∧ t ∈ db.tyrants ∧
          ∀ c, cat = some c → t.category = c) ∧
    (get_published_tyrants db cat p_limit p_offset).Pairwise (fun a b =>
        b.shame_count < a.shame_count ∨
          (a.shame_count = b.shame_count ∧ b.created_at ≤ a.created_at)) ∧
    (get_published_tyrants db cat p_limit p_offset).length ≤ p_limit ∧
    ((publishedMatching db cat).length ≤ p_offset →
        get_published_tyrants db cat p_limit p_offset = []) := by
  refine ⟨?_, ?_, ?_, ?_⟩
  · intro t ht
    unfold get_published_tyrants at ht
    have h1 := List.mem_of_mem_take ht
    have h2 := List.mem_of_mem_drop h1
    have h3 : t ∈ publishedMatching db cat := List.mem_mergeSort.mp h2
    unfold publishedMatching at h3
    obtain ⟨htm, hpred⟩ := List.mem_filter.mp h3
    rw [Bool.and_eq_true] at hpred
    obtain ⟨hpub, hcat⟩ := hpred
    refine ⟨hpub, htm, ?_⟩
    intro c hcat'
    subst hcat'
    simpa using hcat
  · have hs := List.sorted_mergeSort tyrantLE_trans tyrantLE_total
      (publishedMatching db cat)
    have hsub : List.Sublist (get_published_tyrants db cat p_limit p_offset)
        ((publishedMatching db cat).mergeSort tyrantLE) :=
      (List.take_sublist _ _).trans (List.drop_sublist _ _)
    have hpw := List.Pairwise.sublist hsub hs
    refine List.Pairwise.imp ?_ hpw
    intro a b hab
    simpa only [tyrantLE, Bool.or_eq_true, Bool.and_eq_true, decide_eq_true_eq,
      beq_iff_eq] using hab
  · exact List.length_take_le _ _
  · intro hoff
    unfold get_published_tyrants
    rw [List.drop_eq_nil_of_le]
    · simp
    · rw [List.length_mergeSort]
      exact hoff

end TyrantCam
